import Mathlib

/-!
Verification of the incident-response playbook engine of the ExpenseFlow
repository (Issue #851): approval gates, quorum voting, idempotent retry
configuration and execution-status aggregation.

The definitions below are a shallow embedding of the JavaScript sources:

* `src/services/playbooks/playbookExecutorService.js`
  (`PlaybookApprovalGateService`: `evaluateGate`, `requestApprovalFromGate`,
  `requestApproval`, `processApprovalDecision`, `evaluateConditions`),
* `src/models/IncidentPlaybook.js` (`canExecute`, `retryConfig` defaults),
* `src/models/PlaybookApprovalPolicy.js` (`hasExceptionFor`),
* the `PlaybookExecution` schema (`addAuditEvent`, status enumerations).

Dates are embedded as natural-number millisecond timestamps, Mongo documents
as structures holding exactly the fields the embedded functions touch, and
JavaScript string enumerations as inductive types.  Database round-trips are
made explicit: `processApprovalDecision` returns both the state written by
`execution.save()` and the in-memory document that exists after the
subsequent `addAuditEvent` call.  Engine pieces whose implementation is not
part of the sources (only their tests, documentation or callers are) are
modelled from the specification and marked `Modelled from the spec:` in
their doc comments.
-/

namespace ExpenseFlow

/-- Status values stored in `PlaybookExecution.approvals[].status`
(schema enumeration `PENDING | APPROVED | DENIED`). -/
inductive ApprovalStatus
  | pending
  | approved
  | denied
deriving DecidableEq, Repr

/-- An entry of `approval.approvals`: `{ approvedBy, approvedAt, comment }`. -/
structure ApprovalVote where
  approvedBy : String
  approvedAt : Nat
  comment : String
deriving DecidableEq, Repr

/-- An entry of `approval.denials`: `{ deniedBy, deniedAt, reason }`. -/
structure DenialVote where
  deniedBy : String
  deniedAt : Nat
  reason : String
deriving DecidableEq, Repr

/-- An ApprovalRequest as built by `requestApprovalFromGate` /
`requestApproval` and consumed by `processApprovalDecision`.
`requiredApprovers = 0` encodes a missing JavaScript value; every consumer
applies `|| 1`, embedded as `effectiveRequired`. -/
structure Approval where
  approvalId : String
  requiredApprovers : Nat
  approvers : List String
  requestedAt : Nat
  expiresAt : Nat
  status : ApprovalStatus
  approvals : List ApprovalVote
  denials : List DenialVote
deriving DecidableEq, Repr

/-- The detail payload pushed by `processApprovalDecision` into the audit
trail: `{ approvalId, decision, decidedBy, status }`. -/
structure AuditDetails where
  approvalId : String
  decision : String
  decidedBy : String
  status : ApprovalStatus
deriving DecidableEq, Repr

/-- An entry of `PlaybookExecution.auditEvents`:
`{ timestamp, event, details, actor }`. -/
structure AuditEvent where
  timestamp : Nat
  event : String
  details : AuditDetails
  actor : String
deriving DecidableEq, Repr

/-- The slice of a `PlaybookExecution` document that the approval workflow
reads and writes: the embedded `approvals` and `auditEvents` collections. -/
structure Execution where
  approvals : List Approval
  auditEvents : List AuditEvent
deriving DecidableEq, Repr

/-- Method `playbookExecutionSchema.methods.addAuditEvent(event, details,
actor = SYSTEM)`: pushes one audit entry onto the in-memory document.  It does not
save the document. -/
def addAuditEvent (e : Execution) (event : String) (details : AuditDetails)
    (actor : String) (now : Nat) : Execution :=
  { e with auditEvents := e.auditEvents ++
      [{ timestamp := now, event := event, details := details, actor := actor }] }

/-- JavaScript `execution.approvals.find(a => a.approvalId === approvalId)`. -/
def getApproval (e : Execution) (approvalId : String) : Option Approval :=
  e.approvals.find? (fun a => a.approvalId == approvalId)

/-- In-place mutation of the first list element satisfying `p`, as JavaScript
mutation of the object returned by `Array.prototype.find` behaves. -/
def replaceFirst (p : α → Bool) (f : α → α) : List α → List α
  | [] => []
  | x :: xs => if p x then f x :: xs else x :: replaceFirst p f xs

/-- Embeds `approval.requiredApprovers || 1`. -/
def effectiveRequired (a : Approval) : Nat :=
  if a.requiredApprovers == 0 then 1 else a.requiredApprovers

/-- The vote-recording half of `processApprovalDecision` (lines 944-956):
an `APPROVE` decision is pushed onto `approval.approvals`, anything else
onto `approval.denials` (with the comment stored as `reason`). -/
def pushVote (a : Approval) (userId decision comment : String) (now : Nat) : Approval :=
  if decision == "APPROVE" then
    { a with approvals := a.approvals ++
        [{ approvedBy := userId, approvedAt := now, comment := comment }] }
  else
    { a with denials := a.denials ++
        [{ deniedBy := userId, deniedAt := now, reason := comment }] }

/-- The status-update half of `processApprovalDecision` (lines 958-969): any
denial makes the request `DENIED`; otherwise enough approvals make it
`APPROVED`; otherwise the status field is left untouched. -/
def settleStatus (a : Approval) : Approval :=
  if 0 < a.denials.length then { a with status := .denied }
  else if effectiveRequired a ≤ a.approvals.length then { a with status := .approved }
  else a

/-- One decision applied to one approval request: push then settle. -/
def recordDecision (a : Approval) (userId decision comment : String) (now : Nat) : Approval :=
  settleStatus (pushVote a userId decision comment now)

/-- The errors `processApprovalDecision` throws before reaching
`execution.save()`: message `Approval not found` (also covering the
`findOne` miss), message `User is not authorized to approve this`, and
message `This user has already voted on this approval` (named
`AlreadyVotedError` in the specification). -/
inductive PadError
  | approvalNotFound
  | notAuthorized
  | alreadyVoted
deriving DecidableEq, Repr

/-- Successful result of `processApprovalDecision`.  `persisted` is the
document state written by `execution.save()`; `memory` is the in-memory
document after the `addAuditEvent` call that follows the save; `returned`
is the approval object the function returns. -/
structure PadOk where
  persisted : Execution
  memory : Execution
  returned : Approval
deriving DecidableEq, Repr

/-- Method `PlaybookApprovalGateService.processApprovalDecision(approvalId, userId,
decision, comment)` (lines 916-987), for the execution document that
`findOne` loads: locate the approval, reject non-approvers and repeat
voters, record the vote, update the status, save, then append the
`APPROVAL_DECISION` audit event to the in-memory document. -/
def processApprovalDecision (e : Execution) (approvalId userId decision comment : String)
    (now : Nat) : Except PadError PadOk :=
  match getApproval e approvalId with
  | none => .error .approvalNotFound
  | some approval =>
    if !(approval.approvers.contains userId) then .error .notAuthorized
    else
      let alreadyDecided :=
        (approval.approvals.any fun v => v.approvedBy == userId) ||
        (approval.denials.any fun v => v.deniedBy == userId)
      if alreadyDecided then .error .alreadyVoted
      else
        let approval1 := recordDecision approval userId decision comment now
        let saved : Execution :=
          { e with approvals :=
              replaceFirst (fun a => a.approvalId == approvalId) (fun _ => approval1) e.approvals }
        let memory := addAuditEvent saved "APPROVAL_DECISION"
          { approvalId := approvalId, decision := decision, decidedBy := userId,
            status := approval1.status } "SYSTEM" now
        .ok { persisted := saved, memory := memory, returned := approval1 }

/-- The persisted execution after a `processApprovalDecision` call: a throw
happens before `execution.save()`, so on error the stored document is
unchanged. -/
def padPersisted (e : Execution) (approvalId userId decision comment : String)
    (now : Nat) : Execution :=
  match processApprovalDecision e approvalId userId decision comment now with
  | .ok r => r.persisted
  | .error _ => e

/-- The in-memory execution document after a `processApprovalDecision` call:
a throw happens before any mutation, so on error it equals the loaded
document. -/
def padMemory (e : Execution) (approvalId userId decision comment : String)
    (now : Nat) : Execution :=
  match processApprovalDecision e approvalId userId decision comment now with
  | .ok r => r.memory
  | .error _ => e

/-- Arguments of one `processApprovalDecision` call. -/
structure DecisionCall where
  approvalId : String
  userId : String
  decision : String
  comment : String
  now : Nat
deriving DecidableEq, Repr

/-- A sequence of `processApprovalDecision` calls against the persisted
store: each call loads the stored document, and only successful calls write
it back. -/
def applyDecisions (e : Execution) (calls : List DecisionCall) : Execution :=
  calls.foldl (fun acc c => padPersisted acc c.approvalId c.userId c.decision c.comment c.now) e

/-- Approver ids of the recorded `APPROVE` decisions, in order. -/
def votersA (a : Approval) : List String := a.approvals.map (fun v => v.approvedBy)

/-- Approver ids of the recorded `DENY` decisions, in order. -/
def votersD (a : Approval) : List String := a.denials.map (fun v => v.deniedBy)

/-- Number of distinct approver ids among the recorded `APPROVE` decisions. -/
def distinctApprovers (a : Approval) : Nat := (votersA a).dedup.length

/-- The execution state written back by `execution.save()` after a
successful vote: the loaded approval, updated in place. -/
def savedExecution (e : Execution) (aid : String) (approval : Approval)
    (u d c : String) (n : Nat) : Execution :=
  { e with approvals :=
      replaceFirst (fun a => a.approvalId == aid) (fun _ => recordDecision approval u d c n) e.approvals }

/-- Concrete two-approver scenario used to witness C1. -/
def C1a : Approval where
  approvalId := "ap1"
  requiredApprovers := 2
  approvers := ["u1", "u2", "u3"]
  requestedAt := 0
  expiresAt := 3600000
  status := .pending
  approvals := []
  denials := []

def C1e : Execution where
  approvals := [C1a]
  auditEvents := []

def C1calls : List DecisionCall :=
  [{ approvalId := "ap1", userId := "u1", decision := "APPROVE", comment := "", now := 1 },
   { approvalId := "ap1", userId := "u2", decision := "APPROVE", comment := "", now := 2 }]

/-- Concrete scenario refuting the original C4: one required approver, two
eligible approvers. -/
def C4a : Approval where
  approvalId := "ap4"
  requiredApprovers := 1
  approvers := ["u1", "u2"]
  requestedAt := 0
  expiresAt := 3600000
  status := .pending
  approvals := []
  denials := []

def C4e : Execution where
  approvals := [C4a]
  auditEvents := []

/-- Concrete already-denied request used to witness the amended C4. -/
def C4d : Approval where
  approvalId := "ap5"
  requiredApprovers := 1
  approvers := ["u1", "u9"]
  requestedAt := 0
  expiresAt := 3600000
  status := .denied
  approvals := []
  denials := [{ deniedBy := "u9", deniedAt := 1, reason := "no" }]

def C4e2 : Execution where
  approvals := [C4d]
  auditEvents := []

/-- Concrete scenario witnessing C5: `u1` has already approved `ap6`. -/
def C5a : Approval where
  approvalId := "ap6"
  requiredApprovers := 2
  approvers := ["u1", "u2"]
  requestedAt := 0
  expiresAt := 3600000
  status := .pending
  approvals := [{ approvedBy := "u1", approvedAt := 1, comment := "ok" }]
  denials := []

def C5e : Execution where
  approvals := [C5a]
  auditEvents := []

/-- Concrete single-approver scenario exhibiting the audit-persistence gap
of `processApprovalDecision`. -/
def C10a : Approval where
  approvalId := "ap10"
  requiredApprovers := 1
  approvers := ["u1"]
  requestedAt := 0
  expiresAt := 3600000
  status := .pending
  approvals := []
  denials := []

def C10e : Execution where
  approvals := [C10a]
  auditEvents := []

/-- An exception entry of `PlaybookApprovalPolicy.exceptions`: the fields
`hasExceptionFor` can read (`enabled`, `exemptUsers`) together with the
declared but unread `exemptRoles` and `validUntil`. -/
structure PolicyException where
  exceptionId : String
  exemptUsers : List String
  exemptRoles : List String
  validUntil : Option Nat
  enabled : Bool
deriving DecidableEq, Repr

/-- The slice of a `PlaybookApprovalPolicy` document used by gate
evaluation. -/
structure ApprovalPolicy where
  policyId : String
  exceptions : List PolicyException
deriving DecidableEq, Repr

set_option linter.unusedVariables false in
/-- Method `playbookApprovalPolicySchema.methods.hasExceptionFor(userId, riskLevel)`
(lines 309-314): an exception applies when it is enabled and lists the user
among `exemptUsers`.  The `riskLevel` argument, the `exemptRoles` field and
the `validUntil` expiry are not consulted. -/
def hasExceptionFor (p : ApprovalPolicy) (userId : String) (riskLevel : String) : Bool :=
  p.exceptions.any fun exc =>
    if !exc.enabled then false
    else exc.exemptUsers.any (fun uid => uid == userId)

/-- The exemption check as the specification words it (refinement
comparison only, not translated from the source): the target user or one of
their roles is covered by an enabled exemption whose optional `validUntil`
has not yet passed at evaluation time. -/
def hasExceptionForSpec (p : ApprovalPolicy) (userId : String)
    (userRoles : List String) (now : Nat) : Bool :=
  p.exceptions.any fun exc =>
    exc.enabled &&
    (exc.exemptUsers.any (fun uid => uid == userId) ||
      exc.exemptRoles.any (fun r => userRoles.contains r)) &&
    (match exc.validUntil with
     | none => true
     | some t => now ≤ t)

/-- The fields of a `PolicyGateSpec` read by `evaluateGate` and
`requestApprovalFromGate`.  `approvalTimeoutMs = 0` and
`requiredApprovers = 0` encode missing JavaScript values (`|| 3600000` and
`|| 1` apply at the use sites).  `hasTriggerConditions` embeds the
JavaScript truthiness test `gate.triggers && gate.triggers.conditions`. -/
structure GateSpec where
  gateName : String
  requiresApproval : Bool
  requiredApprovers : Nat
  approvalTimeoutMs : Nat
  allowPartialExecution : Bool
  hasTriggerConditions : Bool
deriving DecidableEq, Repr

/-- The incident fields gate evaluation reads. -/
structure Incident where
  targetUser : String
  severity : String
deriving DecidableEq, Repr

/-- Status values of a gate result: `PASSED | FAILED | APPROVAL_PENDING`
(schema), plus `ESCALATION_REQUIRED` assigned in the catch branch. -/
inductive GateStatus
  | passed
  | failed
  | approvalPending
  | escalationRequired
deriving DecidableEq, Repr

/-- The `gateResult` object built by `evaluateGate`. -/
structure GateResult where
  gateName : String
  status : GateStatus
  reason : Option String
  gatePolicy : String
deriving DecidableEq, Repr

/-- Outcome of `requestApprovalFromGate`: the early-return denial object or
the created (and attached) `PENDING` approval request. -/
inductive GateApprovalOutcome
  | denied (reason : String)
  | created (a : Approval)
deriving DecidableEq, Repr

/-- Method `PlaybookApprovalGateService.requestApprovalFromGate` (lines 796-838),
with the database-resolved approver set (`getApproversForGate`), the
generated approval id and the current time passed in: an empty approver set
yields the denial object with status `DENIED` and reason `No approvers
available` and leaves the execution untouched; otherwise a `PENDING`
approval request is built and pushed onto `execution.approvals`.
Notification and escalation-timer side effects are outside the model. -/
def requestApprovalFromGate (gate : GateSpec) (e : Execution) (approvers : List String)
    (freshId : String) (now : Nat) : GateApprovalOutcome × Execution :=
  if approvers.length == 0 then
    (.denied "No approvers available", e)
  else
    let approval : Approval := {
      approvalId := freshId,
      requiredApprovers := if gate.requiredApprovers == 0 then 1 else gate.requiredApprovers,
      approvers := approvers,
      requestedAt := now,
      expiresAt := now + (if gate.approvalTimeoutMs == 0 then 3600000 else gate.approvalTimeoutMs),
      status := .pending,
      approvals := [],
      denials := [] }
    (.created approval, { e with approvals := e.approvals ++ [approval] })

/-- The fields of an action spec read by the action-level `requestApproval`. -/
structure ActionSpec where
  actionId : String
  actionType : String
  requiresApproval : Bool
  approvalRoles : List String
deriving DecidableEq, Repr

/-- Outcome of the action-level `requestApproval`. -/
inductive ActionApprovalOutcome
  | notRequired
  | denied (reason : String)
  | created (a : Approval)
deriving DecidableEq, Repr

/-- Method `PlaybookApprovalGateService.requestApproval(action, incident,
execution)` (lines 843-911), with the database-resolved approver set
(`getApproversForAction`), the generated id and the current time passed in:
a result with status `NOT_REQUIRED` when the action needs no approval; the
denial object with reason `No approvers available` when the approver set is
empty (execution untouched); otherwise a `PENDING` request with
`requiredApprovers = action.approvalRoles?.length || 1` and a fixed
one-hour expiry is pushed onto `execution.approvals`. -/
def requestApproval (action : ActionSpec) (e : Execution) (approvers : List String)
    (freshId : String) (now : Nat) : ActionApprovalOutcome × Execution :=
  if !action.requiresApproval then
    (.notRequired, e)
  else if approvers.length == 0 then
    (.denied "No approvers available", e)
  else
    let approval : Approval := {
      approvalId := freshId,
      requiredApprovers := if action.approvalRoles.length == 0 then 1 else action.approvalRoles.length,
      approvers := approvers,
      requestedAt := now,
      expiresAt := now + 3600000,
      status := .pending,
      approvals := [],
      denials := [] }
    (.created approval, { e with approvals := e.approvals ++ [approval] })

/-- Method `PlaybookApprovalGateService.evaluateConditions(conditions, incident,
execution)` (lines 1017-1029): returns `true` whether or not conditions are
present. -/
def evaluateConditions (conditionsPresent : Bool) : Bool :=
  if !conditionsPresent then true else true

/-- The trailing `gate.triggers && gate.triggers.conditions` check of
`evaluateGate` (lines 757-770), applied to a gate result produced so far. -/
def evaluateGateConditions (gate : GateSpec) (base : GateResult) (e : Execution) :
    GateResult × Execution :=
  if gate.hasTriggerConditions then
    if !(evaluateConditions gate.hasTriggerConditions) then
      ({ base with status := .failed, reason := some "Gate conditions not met" }, e)
    else (base, e)
  else (base, e)

/-- Method `PlaybookApprovalGateService.evaluateGate(gate, policy, incident,
execution)` (lines 696-791), on its non-throwing path.  `autoApproved` is
the outcome of `checkAutoApproval`, which evaluates administrator-supplied
JavaScript condition strings with `new Function` and is therefore passed in
as an input; `approvers` is the database-resolved approver set.  The result
is returned, never thrown, so a denied approval surfaces as a `FAILED` gate
result while the caller keeps running. -/
def evaluateGate (gate : GateSpec) (policy : ApprovalPolicy) (incident : Incident)
    (e : Execution) (autoApproved : Bool) (approvers : List String)
    (freshId : String) (now : Nat) : GateResult × Execution :=
  let base : GateResult :=
    { gateName := gate.gateName, status := .passed, reason := none,
      gatePolicy := policy.policyId }
  if gate.requiresApproval then
    if hasExceptionFor policy incident.targetUser incident.severity then
      ({ base with status := .passed, reason := some "Exception granted" }, e)
    else if autoApproved then
      ({ base with status := .passed, reason := some "Auto-approved based on conditions" }, e)
    else
      match requestApprovalFromGate gate e approvers freshId now with
      | (.denied reason, e1) =>
        ({ base with status := .failed, reason := some ("Approval denied: " ++ reason) }, e1)
      | (.created _, e1) =>
        if !gate.allowPartialExecution then
          ({ base with status := .approvalPending, reason := some "Awaiting approval" }, e1)
        else
          evaluateGateConditions gate base e1
  else
    evaluateGateConditions gate base e

/-- Per-action retry configuration (`retryConfig` in the
`playbookActionSchema`). -/
structure RetryConfig where
  maxRetries : Nat
  backoffMs : Nat
  backoffMultiplier : Nat
deriving DecidableEq, Repr

/-- The schema defaults of `retryConfig` in `src/models/IncidentPlaybook.js`
(lines 61-74): `maxRetries: 3`, `backoffMs: 1000`, `backoffMultiplier: 2`. -/
def defaultRetryConfig : RetryConfig where
  maxRetries := 3
  backoffMs := 1000
  backoffMultiplier := 2

/-- Modelled from the spec: the retry loop of the engine is not under `src/`
(only its test and the configuration schema are).  Per the specification,
attempt 1 runs immediately and attempt `k ≥ 2` waits
`backoffMs * backoffMultiplier ^ (k - 2)` milliseconds. -/
def attemptDelay (cfg : RetryConfig) (attempt : Nat) : Nat :=
  if attempt ≤ 1 then 0 else cfg.backoffMs * cfg.backoffMultiplier ^ (attempt - 2)

/-- The backoff delays recorded before the retry attempts (attempts
`2 .. maxRetries + 1`) when every attempt fails. -/
def recordedBackoffDelays (cfg : RetryConfig) : List Nat :=
  (List.range cfg.maxRetries).map (fun i => attemptDelay cfg (i + 2))

/-- Status values of one `ActionExecution`
(`actionExecutionSchema.status`). -/
inductive ActionExecStatus
  | pending
  | approved
  | executing
  | success
  | failed
  | compensated
  | skipped
deriving DecidableEq, Repr

/-- Overall execution status values (`playbookExecutionSchema.status`). -/
inductive ExecutionStatus
  | initiated
  | running
  | partiallyCompleted
  | completed
  | failed
  | rolledBack
deriving DecidableEq, Repr

/-- Modelled from the spec: the engine function `calculateExecutionStatus` is not
under `src/` (only its test is).  Per the specification the terminal status
is `COMPLETED` when every ActionExecution is `SUCCESS`, `FAILED` when none
succeeded — including the zero-actions case — and `PARTIALLY_COMPLETED`
otherwise. -/
def calculateExecutionStatus (statuses : List ActionExecStatus) : ExecutionStatus :=
  if 0 < statuses.length && statuses.all (fun s => s == .success) then .completed
  else if statuses.all (fun s => !(s == .success)) then .failed
  else .partiallyCompleted

/-- Modelled from the repository documentation and test: the engine
function `generateIdempotencyKey` is not under `src/`; `INCIDENT_RESPONSE_PLAYBOOKS.md`
documents the key as `` `${action.actionId}_${action.createdAt.getTime()}` ``
and the test in the sources asserts that two successive keys for the same
action differ because the key includes a timestamp. -/
def generateIdempotencyKey (actionId : String) (timestampMs : Nat) : String :=
  actionId ++ "_" ++ toString timestampMs

/-- A detection rule of a playbook; `canExecute` reads only the list
cardinality. -/
structure PlaybookRule where
  ruleId : String
  enabled : Bool
deriving DecidableEq, Repr

/-- The fields of an `IncidentPlaybook` read by `canExecute`. -/
structure Playbook where
  playbookId : String
  enabled : Bool
  rules : List PlaybookRule
  actions : List ActionSpec
deriving DecidableEq, Repr

/-- Method `incidentPlaybookSchema.methods.canExecute()` (lines 312-314):
`this.enabled && this.actions.length > 0 && this.rules.length > 0`. -/
def canExecute (p : Playbook) : Bool :=
  p.enabled && decide (0 < p.actions.length) && decide (0 < p.rules.length)

/-- The error thrown when starting a non-executable playbook. -/
inductive StartError
  | invalidPlaybook
deriving DecidableEq, Repr

/-- Modelled from the spec: the engine entry point `start` is not under
`src/` (only `canExecute` is).  Per the specification it fails with
`InvalidPlaybookError` — creating no Execution — unless the playbook can
execute, in which case a fresh Execution is created. -/
def startExecution (p : Playbook) : Except StartError Execution :=
  if canExecute p then .ok { approvals := [], auditEvents := [] }
  else .error .invalidPlaybook

/-- Concrete data for the empty-approver-set scenario. -/
def C8gate : GateSpec where
  gateName := "g8"
  requiresApproval := true
  requiredApprovers := 2
  approvalTimeoutMs := 0
  allowPartialExecution := false
  hasTriggerConditions := false

def C8policy : ApprovalPolicy where
  policyId := "p8"
  exceptions := []

def C8incident : Incident where
  targetUser := "t1"
  severity := "HIGH"

def C8action : ActionSpec where
  actionId := "a8"
  actionType := "ACCOUNT_SUSPEND"
  requiresApproval := true
  approvalRoles := ["SECURITY_ADMIN"]

def C8e : Execution where
  approvals := []
  auditEvents := []

/-- Concrete policy whose only exemption is enabled but expired
(`validUntil` 5, evaluated at time 10). -/
def C9policy : ApprovalPolicy where
  policyId := "p9"
  exceptions := [{ exceptionId := "exc1", exemptUsers := ["u1"], exemptRoles := [],
                   validUntil := some 5, enabled := true }]

def C9gate : GateSpec where
  gateName := "g9"
  requiresApproval := true
  requiredApprovers := 2
  approvalTimeoutMs := 0
  allowPartialExecution := false
  hasTriggerConditions := false

def C9incident : Incident where
  targetUser := "u1"
  severity := "HIGH"

def C9e : Execution where
  approvals := []
  auditEvents := []

/-- State invariant that `processApprovalDecision` maintains on each approval
request: no approver id occurs in two recorded decisions, the status is
`DENIED` exactly when a denial is recorded, and `APPROVED` exactly when no
denial is recorded and the approvals reach the required count. -/
def InvApproval (a : Approval) : Prop :=
  (votersA a ++ votersD a).Nodup ∧
  (a.status = .denied ↔ a.denials ≠ []) ∧
  (a.status = .approved ↔ (a.denials = [] ∧ effectiveRequired a ≤ a.approvals.length))

theorem one_le_effectiveRequired (a : Approval) : 1 ≤ effectiveRequired a := by
  unfold effectiveRequired
  split
  · exact le_refl 1
  · next h => exact Nat.one_le_iff_ne_zero.mpr (by simpa using h)

theorem settleStatus_fields (a : Approval) :
    (settleStatus a).approvalId = a.approvalId ∧
    (settleStatus a).requiredApprovers = a.requiredApprovers ∧
    (settleStatus a).approvers = a.approvers ∧
    (settleStatus a).approvals = a.approvals ∧
    (settleStatus a).denials = a.denials := by
  unfold settleStatus
  split
  · exact ⟨rfl, rfl, rfl, rfl, rfl⟩
  · split
    · exact ⟨rfl, rfl, rfl, rfl, rfl⟩
    · exact ⟨rfl, rfl, rfl, rfl, rfl⟩

theorem pushVote_fields (a : Approval) (u d c : String) (n : Nat) :
    (pushVote a u d c n).approvalId = a.approvalId ∧
    (pushVote a u d c n).requiredApprovers = a.requiredApprovers ∧
    (pushVote a u d c n).approvers = a.approvers ∧
    (pushVote a u d c n).status = a.status := by
  unfold pushVote
  split
  · exact ⟨rfl, rfl, rfl, rfl⟩
  · exact ⟨rfl, rfl, rfl, rfl⟩

theorem recordDecision_approvalId (a : Approval) (u d c : String) (n : Nat) :
    (recordDecision a u d c n).approvalId = a.approvalId := by
  unfold recordDecision
  rw [(settleStatus_fields _).1, (pushVote_fields a u d c n).1]

theorem recordDecision_requiredApprovers (a : Approval) (u d c : String) (n : Nat) :
    (recordDecision a u d c n).requiredApprovers = a.requiredApprovers := by
  unfold recordDecision
  rw [(settleStatus_fields _).2.1, (pushVote_fields a u d c n).2.1]

theorem invApproval_settleStatus (b : Approval)
    (hnd : (votersA b ++ votersD b).Nodup)
    (hfall : b.denials = [] → b.approvals.length < effectiveRequired b →
      (b.status ≠ .denied ∧ b.status ≠ .approved)) :
    InvApproval (settleStatus b) := by
  unfold InvApproval settleStatus
  by_cases h1 : 0 < b.denials.length
  · rw [if_pos h1]
    have hne : b.denials ≠ [] := List.length_pos.mp h1
    exact ⟨by simpa [votersA, votersD] using hnd, by simp [hne], by simp [hne]⟩
  · rw [if_neg h1]
    have hden : b.denials = [] := by
      simpa using List.length_eq_zero.mp (Nat.eq_zero_of_not_pos h1)
    by_cases h2 : effectiveRequired b ≤ b.approvals.length
    · rw [if_pos h2]
      refine ⟨by simpa [votersA, votersD] using hnd, by simp [hden], ?_⟩
      simpa [hden, effectiveRequired] using (by simpa [effectiveRequired] using h2)
    · rw [if_neg h2]
      obtain ⟨hnotd, hnota⟩ := hfall hden (Nat.lt_of_not_le (by simpa using h2))
      exact ⟨hnd, iff_of_false hnotd (by simp [hden]),
        iff_of_false hnota (fun hcon => h2 hcon.2)⟩

theorem invApproval_recordDecision (a : Approval) (u d c : String) (n : Nat)
    (hInv : InvApproval a) (hA : u ∉ votersA a) (hD : u ∉ votersD a) :
    InvApproval (recordDecision a u d c n) := by
  obtain ⟨hnd, hdeq, haeq⟩ := hInv
  simp only [votersA, votersD] at hnd hA hD
  unfold recordDecision pushVote
  split
  · -- an APPROVE decision is pushed onto approval.approvals
    apply invApproval_settleStatus
    · simp only [votersA, votersD, List.map_append, List.map_cons, List.map_nil,
        List.append_assoc, List.singleton_append]
      exact List.nodup_middle.mpr (List.nodup_cons.mpr
        ⟨by simp [List.mem_append, hA, hD], hnd⟩)
    · intro hdenb hltb
      simp only at hdenb hltb
      constructor
      · intro hcon
        exact absurd (hdeq.mp hcon) (by simp [hdenb])
      · intro hcon
        have hle := (haeq.mp hcon).2
        simp only [List.length_append, List.length_cons, List.length_nil,
          effectiveRequired] at hltb hle
        omega
  · -- any other decision is pushed onto approval.denials
    apply invApproval_settleStatus
    · simp only [votersA, votersD, List.map_append, List.map_cons, List.map_nil]
      rw [← List.append_assoc]
      exact List.nodup_middle.mpr (by
        simpa using List.nodup_cons.mpr ⟨by simp [List.mem_append, hA, hD], hnd⟩)
    · intro hdenb _
      exact absurd hdenb (by simp)

theorem find?_replaceFirst_self (p : α → Bool) (f : α → α) (l : List α)
    (hf : ∀ x, p x = true → p (f x) = true) :
    (replaceFirst p f l).find? p = (l.find? p).map f := by
  induction l with
  | nil => rfl
  | cons x xs ih =>
    by_cases hx : p x = true
    · simp [replaceFirst, hx, List.find?_cons_of_pos, hf x hx]
    · have hx' : p x = false := by simpa using hx
      simp [replaceFirst, hx', List.find?_cons_of_neg, ih]

theorem find?_replaceFirst_other (p q : α → Bool) (f : α → α) (l : List α)
    (hpq : ∀ x, p x = true → q x = false)
    (hqf : ∀ x, p x = true → q (f x) = false) :
    (replaceFirst p f l).find? q = l.find? q := by
  induction l with
  | nil => rfl
  | cons x xs ih =>
    by_cases hx : p x = true
    · simp [replaceFirst, hx, List.find?_cons_of_neg, hpq x hx, hqf x hx]
    · have hx' : p x = false := by simpa using hx
      by_cases hq : q x = true
      · simp [replaceFirst, hx', List.find?_cons_of_pos, hq]
      · have hq' : q x = false := by simpa using hq
        simp [replaceFirst, hx', List.find?_cons_of_neg, hq', ih]

/-- Case analysis matching the control flow of `processApprovalDecision`:
either the call throws before `execution.save()` and the store is unchanged,
or the loaded approval admits the vote and the store receives the updated
approval in place. -/
theorem padPersisted_eq_or (e : Execution) (aid u d c : String) (n : Nat) :
    padPersisted e aid u d c n = e ∨
    ∃ approval, getApproval e aid = some approval ∧
      approval.approvers.contains u = true ∧
      (approval.approvals.any fun v => v.approvedBy == u) = false ∧
      (approval.denials.any fun v => v.deniedBy == u) = false ∧
      padPersisted e aid u d c n = savedExecution e aid approval u d c n := by
  unfold padPersisted processApprovalDecision savedExecution
  cases hg : getApproval e aid with
  | none => exact Or.inl rfl
  | some approval =>
    by_cases h1 : approval.approvers.contains u = true
    · have h1m : u ∈ approval.approvers := by simpa using h1
      by_cases h2 : ((approval.approvals.any fun v => v.approvedBy == u) ||
          (approval.denials.any fun v => v.deniedBy == u)) = true
      · have h2m : (∃ x ∈ approval.approvals, x.approvedBy = u) ∨
            (∃ x ∈ approval.denials, x.deniedBy = u) := by simpa using h2
        left
        simp [h1m, h2m]
      · have h2f := Bool.or_eq_false_iff.mp (Bool.eq_false_iff.mpr h2)
        have h2notm : ¬((∃ x ∈ approval.approvals, x.approvedBy = u) ∨
            (∃ x ∈ approval.denials, x.deniedBy = u)) := by simpa using h2
        right
        refine ⟨approval, rfl, h1, h2f.1, h2f.2, ?_⟩
        simp [h1m, h2notm]
    · left
      have h1m : u ∉ approval.approvers := by simpa using h1
      simp [h1m]

theorem getApproval_savedExecution_self (e : Execution) (caid : String)
    (approval : Approval) (u d c : String) (n : Nat)
    (hg : getApproval e caid = some approval) :
    getApproval (savedExecution e caid approval u d c n) caid =
      some (recordDecision approval u d c n) := by
  unfold getApproval savedExecution at *
  rw [find?_replaceFirst_self _ _ _ ?_, hg]
  · rfl
  · intro x hx
    have hp := List.find?_some hg
    simpa [recordDecision_approvalId] using hp

theorem getApproval_savedExecution_other (e : Execution) (caid aid : String)
    (approval : Approval) (u d c : String) (n : Nat)
    (hne : caid ≠ aid) (hg : getApproval e caid = some approval) :
    getApproval (savedExecution e caid approval u d c n) aid = getApproval e aid := by
  unfold getApproval savedExecution at *
  apply find?_replaceFirst_other
  · intro x hx
    have hxid : x.approvalId = caid := by simpa using hx
    simp [hxid, hne]
  · intro x hx
    have hp := List.find?_some hg
    have hap : approval.approvalId = caid := by simpa using hp
    simp [recordDecision_approvalId, hap, hne]

/-- Any per-approval property preserved by `recordDecision` under the
already-voted guard is preserved by any sequence of
`processApprovalDecision` calls, and the approval request itself never
disappears from the store. -/
theorem getApproval_applyDecisions (P : Approval → Prop)
    (hP : ∀ a u d c n, P a →
        (a.approvals.any fun v => v.approvedBy == u) = false →
        (a.denials.any fun v => v.deniedBy == u) = false →
        P (recordDecision a u d c n))
    (aid : String) (calls : List DecisionCall) :
    ∀ e a₀, getApproval e aid = some a₀ → P a₀ →
    ∃ a, getApproval (applyDecisions e calls) aid = some a ∧ P a := by
  induction calls with
  | nil =>
    intro e a₀ h hp
    exact ⟨a₀, by simpa [applyDecisions] using h, hp⟩
  | cons chead ctail ih =>
    intro e a₀ h hp
    have hstep : ∃ a₁, getApproval
        (padPersisted e chead.approvalId chead.userId chead.decision chead.comment chead.now)
        aid = some a₁ ∧ P a₁ := by
      rcases padPersisted_eq_or e chead.approvalId chead.userId chead.decision
          chead.comment chead.now with hsame | ⟨ap, hg, _, hna, hnd2, heq⟩
      · exact ⟨a₀, by rw [hsame]; exact h, hp⟩
      · by_cases hid : chead.approvalId = aid
        · subst hid
          have hap : ap = a₀ := by rw [hg] at h; exact Option.some.inj h
          subst hap
          refine ⟨recordDecision ap chead.userId chead.decision chead.comment chead.now,
            ?_, hP _ _ _ _ _ hp hna hnd2⟩
          rw [heq]
          exact getApproval_savedExecution_self _ _ _ _ _ _ _ hg
        · refine ⟨a₀, ?_, hp⟩
          rw [heq, getApproval_savedExecution_other _ _ _ _ _ _ _ _ hid hg]
          exact h
    obtain ⟨a₁, h₁, hp₁⟩ := hstep
    obtain ⟨a, ha, hpa⟩ := ih _ a₁ h₁ hp₁
    exact ⟨a, by simpa [applyDecisions] using ha, hpa⟩

theorem not_mem_votersA_of_any_eq_false (a : Approval) (u : String)
    (h : (a.approvals.any fun v => v.approvedBy == u) = false) : u ∉ votersA a := by
  intro hmem
  simp only [votersA, List.mem_map] at hmem
  obtain ⟨v, hv, he⟩ := hmem
  simp only [List.any_eq_false, beq_iff_eq] at h
  exact h v hv he

theorem not_mem_votersD_of_any_eq_false (a : Approval) (u : String)
    (h : (a.denials.any fun v => v.deniedBy == u) = false) : u ∉ votersD a := by
  intro hmem
  simp only [votersD, List.mem_map] at hmem
  obtain ⟨v, hv, he⟩ := hmem
  simp only [List.any_eq_false, beq_iff_eq] at h
  exact h v hv he

theorem any_eq_true_of_mem_votersA (a : Approval) (u : String)
    (h : u ∈ votersA a) : (a.approvals.any fun v => v.approvedBy == u) = true := by
  simp only [votersA, List.mem_map] at h
  obtain ⟨v, hv, he⟩ := h
  simp only [List.any_eq_true, beq_iff_eq]
  exact ⟨v, hv, he⟩

theorem any_eq_true_of_mem_votersD (a : Approval) (u : String)
    (h : u ∈ votersD a) : (a.denials.any fun v => v.deniedBy == u) = true := by
  simp only [votersD, List.mem_map] at h
  obtain ⟨v, hv, he⟩ := h
  simp only [List.any_eq_true, beq_iff_eq]
  exact ⟨v, hv, he⟩

theorem invApproval_of_fresh (a₀ : Approval) (hstatus : a₀.status = .pending)
    (happr : a₀.approvals = []) (hden : a₀.denials = []) : InvApproval a₀ := by
  refine ⟨?_, ?_, ?_⟩
  · simp [votersA, votersD, happr, hden]
  · simp [hstatus, hden]
  · constructor
    · intro hcon
      rw [hstatus] at hcon
      exact absurd hcon (by simp)
    · rintro ⟨-, hle⟩
      rw [happr] at hle
      have h1 := one_le_effectiveRequired a₀
      simp only [List.length_nil, Nat.le_zero] at hle
      rw [hle] at h1
      exact absurd h1 (by simp)

/-- C1.  For a fresh approval request (status `PENDING`, no recorded votes),
after any sequence of `processApprovalDecision` calls the request is still
in the store with the same required-approver count, its status is
`APPROVED` exactly when the distinct recorded `APPROVE` decisions reach the
required count and no `DENY` decision is recorded, and whenever at least
one `DENY` decision is recorded the status is `DENIED`, regardless of the
approve count. -/
theorem approval_quorum_after_decisions (e : Execution) (aid : String)
    (calls : List DecisionCall) (a₀ : Approval)
    (h₀ : getApproval e aid = some a₀) (hstatus : a₀.status = .pending)
    (happr : a₀.approvals = []) (hden : a₀.denials = []) :
    ∃ a, getApproval (applyDecisions e calls) aid = some a ∧
      a.requiredApprovers = a₀.requiredApprovers ∧
      (a.status = .approved ↔
        (effectiveRequired a ≤ distinctApprovers a ∧ a.denials = [])) ∧
      (a.denials ≠ [] → a.status = .denied) := by
  have hInv₀ : InvApproval a₀ := invApproval_of_fresh a₀ hstatus happr hden
  obtain ⟨a, ha, hInv, hreq⟩ := getApproval_applyDecisions
    (fun a => InvApproval a ∧ a.requiredApprovers = a₀.requiredApprovers)
    (by
      rintro a u d c n ⟨hI, hr⟩ hna hnd2
      refine ⟨invApproval_recordDecision a u d c n hI
        (not_mem_votersA_of_any_eq_false a u hna)
        (not_mem_votersD_of_any_eq_false a u hnd2), ?_⟩
      rw [recordDecision_requiredApprovers]
      exact hr)
    aid calls e a₀ h₀ ⟨hInv₀, rfl⟩
  obtain ⟨hnd, hdeq, haeq⟩ := hInv
  have hndA : (votersA a).Nodup := List.Nodup.of_append_left hnd
  have hdd : distinctApprovers a = a.approvals.length := by
    unfold distinctApprovers
    rw [List.Nodup.dedup hndA]
    simp [votersA]
  refine ⟨a, ha, hreq, ?_, fun hne => hdeq.mpr hne⟩
  rw [haeq, hdd]
  constructor
  · rintro ⟨h1, h2⟩; exact ⟨h2, h1⟩
  · rintro ⟨h1, h2⟩; exact ⟨h2, h1⟩

theorem approval_quorum_after_decisions_witness :
    ∃ a, getApproval (applyDecisions C1e C1calls) "ap1" = some a ∧
      a.requiredApprovers = C1a.requiredApprovers ∧
      (a.status = .approved ↔
        (effectiveRequired a ≤ distinctApprovers a ∧ a.denials = [])) ∧
      (a.denials ≠ [] → a.status = .denied) :=
  approval_quorum_after_decisions C1e "ap1" C1calls C1a rfl rfl rfl rfl

theorem settleStatus_denied (b : Approval) (h : 0 < b.denials.length) :
    (settleStatus b).status = .denied ∧ (settleStatus b).denials = b.denials := by
  unfold settleStatus
  rw [if_pos h]
  exact ⟨rfl, rfl⟩

theorem pushVote_denials_ne (a : Approval) (u d c : String) (n : Nat)
    (hne : a.denials ≠ []) : (pushVote a u d c n).denials ≠ [] := by
  unfold pushVote
  split
  · simpa using hne
  · simp

theorem recordDecision_of_denials_ne (a : Approval) (u d c : String) (n : Nat)
    (hne : a.denials ≠ []) :
    (recordDecision a u d c n).status = .denied ∧
    (recordDecision a u d c n).denials ≠ [] := by
  unfold recordDecision
  have hne1 := pushVote_denials_ne a u d c n hne
  have h0 := settleStatus_denied (pushVote a u d c n) (List.length_pos.mpr hne1)
  refine ⟨h0.1, ?_⟩
  rw [h0.2]
  exact hne1

/-- C4 (amended).  A request that is `DENIED` (with its denial recorded)
never leaves `DENIED`, whatever further decisions are processed. -/
theorem denied_request_stays_denied (e : Execution) (aid : String)
    (calls : List DecisionCall) (a₀ : Approval)
    (h₀ : getApproval e aid = some a₀) (hst : a₀.status = .denied)
    (hdn : a₀.denials ≠ []) :
    ∃ a, getApproval (applyDecisions e calls) aid = some a ∧ a.status = .denied := by
  obtain ⟨a, ha, hp⟩ := getApproval_applyDecisions
    (fun a => a.status = .denied ∧ a.denials ≠ [])
    (by
      rintro a u d c n ⟨-, hne⟩ _ _
      exact recordDecision_of_denials_ne a u d c n hne)
    aid calls e a₀ h₀ ⟨hst, hdn⟩
  exact ⟨a, ha, hp.1⟩

/-- C4 counterexample: after `u1` votes `APPROVE` the request is terminal
`APPROVED`, yet a later `DENY` from `u2` is accepted and flips the status to
`DENIED`, so a request once `APPROVED` can later be `DENIED`. -/
theorem approved_request_later_denied_cex :
    ((getApproval (padPersisted C4e "ap4" "u1" "APPROVE" "" 1) "ap4").map
        (fun a => a.status) = some .approved) ∧
    ((getApproval (padPersisted (padPersisted C4e "ap4" "u1" "APPROVE" "" 1)
          "ap4" "u2" "DENY" "risky" 2) "ap4").map
        (fun a => a.status) = some .denied) :=
  ⟨by decide, by decide⟩

theorem denied_request_stays_denied_witness :
    ∃ a, getApproval (applyDecisions C4e2
      [{ approvalId := "ap5", userId := "u1", decision := "APPROVE", comment := "", now := 3 }])
      "ap5" = some a ∧ a.status = .denied :=
  denied_request_stays_denied C4e2 "ap5"
    [{ approvalId := "ap5", userId := "u1", decision := "APPROVE", comment := "", now := 3 }]
    C4d rfl rfl (by decide)

/-- C5.  A `processApprovalDecision` call by an approver who already has a
recorded decision on the request fails with the already-voted error, and
neither the persisted nor the in-memory execution changes: exactly one
decision per approver id is ever recorded. -/
theorem duplicate_vote_rejected (e : Execution) (aid u d c : String) (n : Nat)
    (a : Approval) (h : getApproval e aid = some a)
    (hmem : a.approvers.contains u = true)
    (hvoted : u ∈ votersA a ∨ u ∈ votersD a) :
    processApprovalDecision e aid u d c n = .error .alreadyVoted ∧
    padPersisted e aid u d c n = e ∧
    padMemory e aid u d c n = e := by
  have h1m : u ∈ a.approvers := by simpa using hmem
  have hdec : ((a.approvals.any fun v => v.approvedBy == u) ||
      (a.denials.any fun v => v.deniedBy == u)) = true := by
    rcases hvoted with hA | hD
    · rw [any_eq_true_of_mem_votersA a u hA, Bool.true_or]
    · rw [any_eq_true_of_mem_votersD a u hD, Bool.or_true]
  have hdecm : (∃ x ∈ a.approvals, x.approvedBy = u) ∨
      (∃ x ∈ a.denials, x.deniedBy = u) := by simpa using hdec
  have herr : processApprovalDecision e aid u d c n = .error .alreadyVoted := by
    unfold processApprovalDecision
    rw [h]
    simp [h1m, hdecm]
  refine ⟨herr, ?_, ?_⟩
  · unfold padPersisted
    rw [herr]
  · unfold padMemory
    rw [herr]

theorem duplicate_vote_rejected_witness :
    processApprovalDecision C5e "ap6" "u1" "APPROVE" "" 2 = .error .alreadyVoted ∧
    padPersisted C5e "ap6" "u1" "APPROVE" "" 2 = C5e ∧
    padMemory C5e "ap6" "u1" "APPROVE" "" 2 = C5e :=
  duplicate_vote_rejected C5e "ap6" "u1" "APPROVE" "" 2 C5a rfl rfl (Or.inl (by decide))

/-- C10.  `processApprovalDecision` calls `execution.save()` before
`addAuditEvent`, and never saves again, so the persisted audit trail is
unchanged by every call; the `APPROVAL_DECISION` event (with actor
`SYSTEM`) exists only on the in-memory document.  The first conjunct proves
this for every input; the rest evaluates the failing input: a valid
`APPROVE` on a fresh single-approver request leaves the persisted trail
empty while the in-memory trail gains the event. -/
theorem approval_audit_event_not_persisted :
    (∀ (e : Execution) (aid u d c : String) (n : Nat),
      (padPersisted e aid u d c n).auditEvents = e.auditEvents) ∧
    (padMemory C10e "ap10" "u1" "APPROVE" "ok" 5).auditEvents =
      [{ timestamp := 5, event := "APPROVAL_DECISION",
         details := { approvalId := "ap10", decision := "APPROVE",
                      decidedBy := "u1", status := .approved },
         actor := "SYSTEM" }] ∧
    (padPersisted C10e "ap10" "u1" "APPROVE" "ok" 5).auditEvents = [] ∧
    C10e.auditEvents = [] := by
  refine ⟨?_, by decide, by decide, rfl⟩
  intro e aid u d c n
  rcases padPersisted_eq_or e aid u d c n with hsame | ⟨ap, _, _, _, _, heq⟩
  · rw [hsame]
  · rw [heq]
    rfl

/-- C2 counterexample: for the fixed pair (execution `exec_1`, action
`test_action`) two key computations at successive millisecond timestamps
yield different keys, so the key is not a function of
(execution id, action id) — exactly what the test of the repository
asserts. -/
theorem idempotency_key_not_deterministic_cex :
    generateIdempotencyKey "test_action" 1000 ≠ generateIdempotencyKey "test_action" 1001 := by
  decide

/-- C2 (amended).  The idempotency key is the action id followed by an
underscore and the generation timestamp: two keys for the same action agree
only when the embedded timestamp strings agree, and every key extends the
action id by a non-empty suffix.  It does not depend on the execution id at
all. -/
theorem idempotency_key_timestamped :
    (∀ (aid : String) (t₁ t₂ : Nat),
      generateIdempotencyKey aid t₁ = generateIdempotencyKey aid t₂ →
      toString t₁ = toString t₂) ∧
    (∀ (aid : String) (t : Nat),
      ∃ s, generateIdempotencyKey aid t = aid ++ s ∧ s ≠ "") := by
  constructor
  · intro aid t₁ t₂ h
    unfold generateIdempotencyKey at h
    have hd := congrArg String.data h
    simp only [String.data_append, List.append_assoc] at hd
    have hd2 := List.append_cancel_left hd
    have hd3 := List.append_cancel_left hd2
    cases h₁ : toString t₁ with
    | mk d₁ =>
      cases h₂ : toString t₂ with
      | mk d₂ =>
        rw [h₁, h₂] at hd3
        simpa [h₁, h₂] using congrArg String.mk hd3
  · intro aid t
    refine ⟨"_" ++ toString t, ?_, ?_⟩
    · unfold generateIdempotencyKey
      rw [String.append_assoc]
    · intro hcon
      have hlen := congrArg String.length hcon
      rw [String.length_append] at hlen
      have h1 : ("_" : String).length = 1 := rfl
      have h0 : ("" : String).length = 0 := rfl
      omega

theorem idempotency_key_timestamped_witness :
    toString (1000 : Nat) = toString (1000 : Nat) ∧
    (∃ s, generateIdempotencyKey "test_action" 1000 = "test_action" ++ s ∧ s ≠ "") :=
  ⟨idempotency_key_timestamped.1 "test_action" 1000 1000 rfl,
   idempotency_key_timestamped.2 "test_action" 1000⟩

/-- C3 (spec-modelled).  The aggregated terminal status is `COMPLETED`
exactly when actions ran and all succeeded, `FAILED` exactly when none
succeeded (including zero actions), and `PARTIALLY_COMPLETED` exactly when
successes and non-successes coexist; the three cases of the repository
test are evaluated as well. -/
theorem calculateExecutionStatus_spec :
    (∀ statuses : List ActionExecStatus,
      (calculateExecutionStatus statuses = .completed ↔
        (statuses ≠ [] ∧ ∀ s ∈ statuses, s = .success)) ∧
      (calculateExecutionStatus statuses = .failed ↔
        (∀ s ∈ statuses, s ≠ .success)) ∧
      (calculateExecutionStatus statuses = .partiallyCompleted ↔
        ((∃ s ∈ statuses, s = .success) ∧ (∃ s ∈ statuses, s ≠ .success)))) ∧
    calculateExecutionStatus [.success, .success, .success] = .completed ∧
    calculateExecutionStatus [.success, .failed, .success] = .partiallyCompleted ∧
    calculateExecutionStatus [.failed, .failed] = .failed ∧
    calculateExecutionStatus [] = .failed := by
  refine ⟨?_, by decide, by decide, by decide, by decide⟩
  intro statuses
  unfold calculateExecutionStatus
  by_cases h1 : (0 < statuses.length && statuses.all (fun s => s == .success)) = true
  · rw [if_pos h1]
    obtain ⟨hlen, hall⟩ := Bool.and_eq_true_iff.mp h1
    have hne : statuses ≠ [] := List.length_pos.mp (by simpa using hlen)
    have hallm : ∀ s ∈ statuses, s = .success := by
      intro s hs
      have := List.all_eq_true.mp hall s hs
      simpa using this
    refine ⟨iff_of_true rfl ⟨hne, hallm⟩, iff_of_false (by simp) ?_, iff_of_false (by simp) ?_⟩
    · intro hnone
      obtain ⟨s, hs⟩ := List.exists_mem_of_ne_nil statuses hne
      exact hnone s hs (hallm s hs)
    · rintro ⟨-, ⟨s, hs, hsne⟩⟩
      exact hsne (hallm s hs)
  · rw [if_neg h1]
    by_cases h2 : (statuses.all fun s => !(s == .success)) = true
    · rw [if_pos h2]
      have hnone : ∀ s ∈ statuses, s ≠ .success := by
        intro s hs
        have := List.all_eq_true.mp h2 s hs
        simpa using this
      refine ⟨iff_of_false (by simp) ?_, iff_of_true rfl hnone, iff_of_false (by simp) ?_⟩
      · rintro ⟨hne, hallm⟩
        obtain ⟨s, hs⟩ := List.exists_mem_of_ne_nil statuses hne
        exact hnone s hs (hallm s hs)
      · rintro ⟨⟨s, hs, hsy⟩, -⟩
        exact hnone s hs hsy
    · rw [if_neg h2]
      have hsucc : ∃ s ∈ statuses, s = .success := by
        by_contra hcon
        push_neg at hcon
        exact h2 (List.all_eq_true.mpr fun s hs => by simpa using hcon s hs)
      have hlen : 0 < statuses.length := by
        obtain ⟨s, hs, -⟩ := hsucc
        exact List.length_pos.mpr (List.ne_nil_of_mem hs)
      have hnons : ∃ s ∈ statuses, s ≠ .success := by
        by_contra hcon
        push_neg at hcon
        apply h1
        refine Bool.and_eq_true_iff.mpr ⟨by simpa using hlen, ?_⟩
        exact List.all_eq_true.mpr fun s hs => by simpa using hcon s hs
      refine ⟨iff_of_false (by simp) ?_, iff_of_false (by simp) ?_,
        iff_of_true rfl ⟨hsucc, hnons⟩⟩
      · rintro ⟨-, hallm⟩
        obtain ⟨s, hs, hsne⟩ := hnons
        exact hsne (hallm s hs)
      · intro hnone
        obtain ⟨s, hs, hsy⟩ := hsucc
        exact hnone s hs hsy

/-- C6 (spec-modelled).  With the schema-default retry policy
(`maxRetries = 3`, `backoffMs = 1000`, `backoffMultiplier = 2`) and a
handler failing on every attempt, the first attempt waits nothing and the
recorded backoff delays are exactly `[1000, 2000, 4000]`; in general
attempt `k ≥ 2` waits `1000 * 2 ^ (k - 2)` milliseconds. -/
theorem retry_backoff_defaults :
    recordedBackoffDelays defaultRetryConfig = [1000, 2000, 4000] ∧
    attemptDelay defaultRetryConfig 1 = 0 ∧
    (∀ k, 2 ≤ k → attemptDelay defaultRetryConfig k = 1000 * 2 ^ (k - 2)) := by
  refine ⟨by decide, by decide, ?_⟩
  intro k hk
  unfold attemptDelay
  rw [if_neg (by omega)]
  rfl

theorem retry_backoff_defaults_witness :
    2 ≤ 4 ∧ attemptDelay defaultRetryConfig 4 = 1000 * 2 ^ (4 - 2) :=
  ⟨by decide, retry_backoff_defaults.2.2 4 (by decide)⟩

/-- C7.  A playbook can execute exactly when it is enabled with at least
one rule and at least one action (`canExecute`, embedded from the source),
and the spec-modelled `start` fails with `InvalidPlaybookError` — creating
no Execution — exactly when it cannot. -/
theorem canExecute_iff_and_start :
    ∀ p : Playbook,
      (canExecute p = true ↔ (p.enabled = true ∧ p.rules ≠ [] ∧ p.actions ≠ [])) ∧
      (startExecution p = .error .invalidPlaybook ↔
        ¬(p.enabled = true ∧ p.rules ≠ [] ∧ p.actions ≠ [])) ∧
      ((∃ e, startExecution p = .ok e) ↔ canExecute p = true) := by
  intro p
  have hiff : canExecute p = true ↔ (p.enabled = true ∧ p.rules ≠ [] ∧ p.actions ≠ []) := by
    unfold canExecute
    constructor
    · intro h
      simp only [Bool.and_eq_true, decide_eq_true_eq, List.length_pos] at h
      exact ⟨h.1.1, h.2, h.1.2⟩
    · rintro ⟨h1, h2, h3⟩
      simp only [Bool.and_eq_true, decide_eq_true_eq, List.length_pos]
      exact ⟨⟨h1, h3⟩, h2⟩
  refine ⟨hiff, ?_, ?_⟩
  · unfold startExecution
    by_cases hc : canExecute p = true
    · rw [if_pos hc]
      exact iff_of_false (by simp) (fun hcon => hcon (hiff.mp hc))
    · rw [if_neg hc]
      exact iff_of_true rfl (fun hcon => hc (hiff.mpr hcon))
  · unfold startExecution
    by_cases hc : canExecute p = true
    · rw [if_pos hc]
      exact iff_of_true ⟨_, rfl⟩ hc
    · rw [if_neg hc]
      refine iff_of_false ?_ hc
      rintro ⟨e', he'⟩
      simp at he'

/-- C8.  When the resolved approver set is empty, both the gate-level and
the action-level request return the denial object with the
no-approvers-available reason, no ApprovalRequest is attached to the
execution, and `evaluateGate` absorbs the denial into a returned `FAILED`
gate result instead of throwing. -/
theorem no_approvers_denies_without_request (gate : GateSpec) (policy : ApprovalPolicy)
    (incident : Incident) (e : Execution) (action : ActionSpec)
    (freshId : String) (now : Nat)
    (hreq : gate.requiresApproval = true)
    (hexc : hasExceptionFor policy incident.targetUser incident.severity = false)
    (hact : action.requiresApproval = true) :
    requestApprovalFromGate gate e [] freshId now = (.denied "No approvers available", e) ∧
    evaluateGate gate policy incident e false [] freshId now =
      ({ gateName := gate.gateName, status := .failed,
         reason := some "Approval denied: No approvers available",
         gatePolicy := policy.policyId }, e) ∧
    requestApproval action e [] freshId now = (.denied "No approvers available", e) := by
  refine ⟨rfl, ?_, ?_⟩
  · unfold evaluateGate
    simp [hreq, hexc, requestApprovalFromGate]
  · unfold requestApproval
    simp [hact]

theorem no_approvers_denies_without_request_witness :
    requestApprovalFromGate C8gate C8e [] "f8" 7 = (.denied "No approvers available", C8e) ∧
    evaluateGate C8gate C8policy C8incident C8e false [] "f8" 7 =
      ({ gateName := C8gate.gateName, status := .failed,
         reason := some "Approval denied: No approvers available",
         gatePolicy := C8policy.policyId }, C8e) ∧
    requestApproval C8action C8e [] "f8" 7 = (.denied "No approvers available", C8e) :=
  no_approvers_denies_without_request C8gate C8policy C8incident C8e C8action "f8" 7
    rfl rfl rfl

/-- C9 counterexample: at evaluation time 10 the sole exemption of the policy is
expired (`validUntil` 5) yet still enabled, `hasExceptionFor` reports an
exemption anyway, the gate passes with reason `Exception granted`, and the
spec-worded check (`hasExceptionForSpec`) disagrees — refuting the claim
that an expired exemption never grants a PASS. -/
theorem expired_exemption_still_passes_cex :
    C9policy.exceptions.map (fun exc => exc.validUntil) = [some 5] ∧ 5 < 10 ∧
    hasExceptionFor C9policy "u1" "HIGH" = true ∧
    hasExceptionForSpec C9policy "u1" [] 10 = false ∧
    (evaluateGate C9gate C9policy C9incident C9e false ["a1"] "f9" 10).1.status = .passed ∧
    (evaluateGate C9gate C9policy C9incident C9e false ["a1"] "f9" 10).1.reason =
      some "Exception granted" := by
  exact ⟨rfl, by decide, by decide, by decide, by decide, by decide⟩

/-- C9 (amended).  The exemption check passes exactly when some enabled
exception lists the target user among `exemptUsers`; neither the risk
level, nor `exemptRoles`, nor the `validUntil` expiry is consulted, and on
a gate requiring approval such an exemption makes `evaluateGate` return a
`PASSED` result with reason `Exception granted`, leaving the execution
untouched. -/
theorem exemption_check_user_only (policy : ApprovalPolicy) (uid risk : String)
    (gate : GateSpec) (incident : Incident) (e : Execution) (autoApproved : Bool)
    (approvers : List String) (freshId : String) (now : Nat)
    (hreq : gate.requiresApproval = true) :
    (hasExceptionFor policy uid risk = true ↔
      ∃ exc ∈ policy.exceptions, exc.enabled = true ∧ uid ∈ exc.exemptUsers) ∧
    (hasExceptionFor policy incident.targetUser incident.severity = true →
      evaluateGate gate policy incident e autoApproved approvers freshId now =
        ({ gateName := gate.gateName, status := .passed,
           reason := some "Exception granted", gatePolicy := policy.policyId }, e)) := by
  constructor
  · unfold hasExceptionFor
    simp only [List.any_eq_true]
    constructor
    · rintro ⟨exc, hmem, hcond⟩
      by_cases hen : exc.enabled = true
      · refine ⟨exc, hmem, hen, ?_⟩
        simp only [hen, Bool.not_true, Bool.false_eq_true, if_false,
          List.any_eq_true, beq_iff_eq] at hcond
        obtain ⟨x, hx, hxe⟩ := hcond
        rwa [hxe] at hx
      · have hen' : exc.enabled = false := by simpa using hen
        simp [hen'] at hcond
    · rintro ⟨exc, hmem, hen, huid⟩
      refine ⟨exc, hmem, ?_⟩
      simp only [hen, Bool.not_true, Bool.false_eq_true, if_false,
        List.any_eq_true, beq_iff_eq]
      exact ⟨uid, huid, rfl⟩
  · intro hex
    unfold evaluateGate
    simp [hreq, hex]

theorem exemption_check_user_only_witness :
    (hasExceptionFor C9policy "u1" "HIGH" = true ↔
      ∃ exc ∈ C9policy.exceptions, exc.enabled = true ∧ "u1" ∈ exc.exemptUsers) ∧
    (hasExceptionFor C9policy C9incident.targetUser C9incident.severity = true →
      evaluateGate C9gate C9policy C9incident C9e false ["a1"] "f9" 10 =
        ({ gateName := C9gate.gateName, status := .passed,
           reason := some "Exception granted", gatePolicy := C9policy.policyId }, C9e)) :=
  exemption_check_user_only C9policy "u1" "HIGH" C9gate C9incident C9e false ["a1"] "f9" 10 rfl

end ExpenseFlow
